import Mathlib

/-!
Verification of the literature-repository core: the image-metadata
normalizer (`services/literature_service.py`), the record store's
mutate primitive and tag operations (`db_manager.py`), and the service
orchestration that wires them together.

Python strings are modelled as Lean `String`; Python `str.strip()` is
modelled by `pyStrip` over the underlying character list; Python dicts
that are only ever used through `.get` are modelled as association
lists with last-insertion-wins lookup (`dget`), matching dict overwrite
semantics.  Exceptions are modelled with `Except PyErr`.  The on-disk
analysis file of one record is `Option FileState`: `none` means the
file (or its directory) is absent; `FileState.version` counts writes,
standing in for the file's byte content / modification time so that
"no write happened" is expressible as equality of states.
-/

namespace APP

/-- Python `str.strip()` strips whitespace from both ends. -/
def isPySpace (c : Char) : Bool := c.isWhitespace

/-- `str.strip()` on the character list of a string. -/
def pyStripList (l : List Char) : List Char :=
  ((l.dropWhile isPySpace).reverse.dropWhile isPySpace).reverse

/-- Python `s.strip()`. -/
def pyStrip (s : String) : String := ⟨pyStripList s.data⟩

/-- Python `s.lower()`: per-character lowercasing. -/
def pyLower (s : String) : String := ⟨s.data.map Char.toLower⟩

/-- One image-annotation entry, the dict
`{"filename": .., "figure_id": .., "label": .., "category": ..}`
built by `_make_metadata_entry`. -/
structure Entry where
  filename : String
  figure_id : String
  label : String
  category : String
deriving DecidableEq

/-- The exception taxonomy that the modelled code can raise:
`FileNotFoundError` (store level), `NotFoundError` / `InvalidUploadError`
(service level, `LiteratureServiceError` subclasses), `KeyError`. -/
inductive PyErr where
  | fileNotFound (msg : String)
  | notFoundError (msg : String)
  | invalidUpload (msg : String)
  | keyError (msg : String)
deriving DecidableEq

/-- One element of the caller-supplied image-metadata payload list.
`notDict` models a JSON item that is not an object; `dict` carries the
four fields read via `item.get(..)`, each `none` when the key is
absent (non-string field values, which Python passes through `str(..)`,
are modelled as their string form). -/
inductive PatchItem where
  | notDict
  | dict (filename : Option String) (figure_id : Option String)
      (label : Option String) (category : Option String)
deriving DecidableEq

/-- `LiteratureService.ALLOWED_IMAGE_CATEGORIES`. -/
def ALLOWED_IMAGE_CATEGORIES : List String :=
  ["figure", "subfigure", "cover", "ignore"]

/-- `LiteratureService._normalize_category`: falsy values fall back to
`"figure"`, otherwise strip + lowercase and fall back to `"figure"`
when not in the allow-list. -/
def normalize_category (category_value : Option String) : String :=
  match category_value with
  | none => "figure"
  | some s =>
    if s = "" then "figure"
    else
      let value := pyLower (pyStrip s)
      if ALLOWED_IMAGE_CATEGORIES.contains value then value else "figure"

/-- `LiteratureService._make_metadata_entry`.  `str(d.get(k) or "")`
on a string field is the field itself (falsy `""` maps to `""`), so
only the strip remains. -/
def make_metadata_entry (filename : String) (index : Nat) (existing : Option Entry) : Entry :=
  let figure_id := match existing with
    | some e => pyStrip e.figure_id
    | none => ""
  let label := match existing with
    | some e => pyStrip e.label
    | none => ""
  let category := match existing with
    | some e => if e.category = "" then "figure" else e.category
    | none => "figure"
  let figure_id := if figure_id = "" then toString (index + 1) else figure_id
  let normalized_category :=
    if ALLOWED_IMAGE_CATEGORIES.contains category then category else "figure"
  let figure_id :=
    if normalized_category = "cover" ∨ normalized_category = "ignore" then
      (if normalized_category = "cover" then figure_id else "")
    else figure_id
  { filename := filename, figure_id := figure_id, label := label,
    category := normalized_category }

/-- Last-insertion-wins lookup in an association list, matching
`dict.get` on a dict built by repeated key assignment. -/
def dget (m : List (String × Entry)) (k : String) : Option Entry :=
  (m.reverse.find? (fun p => p.1 == k)).map Prod.snd

/-- The dict value `provided_map[filename]` built for one payload item. -/
def provided_entry (filename : String) (fid lbl cat : Option String) : Entry :=
  { filename := filename,
    figure_id := pyStrip (fid.getD ""),
    label := pyStrip (lbl.getD ""),
    category := normalize_category cat }

/-- The `provided_map` loop of `_normalize_image_metadata_payload`:
non-object items and missing/empty filenames raise, valid items are
keyed by filename (later duplicates win via `dget`). -/
def build_provided_map : List PatchItem → Except PyErr (List (String × Entry))
  | [] => .ok []
  | PatchItem.notDict :: _ => .error (.invalidUpload "每个图片元数据项都必须是对象")
  | PatchItem.dict fn fid lbl cat :: rest =>
    match fn with
    | none => .error (.invalidUpload "图片元数据缺少文件名")
    | some f =>
      if f = "" then .error (.invalidUpload "图片元数据缺少文件名")
      else do
        let m ← build_provided_map rest
        .ok ((f, provided_entry f fid lbl cat) :: m)

/-- `existing_lookup = {entry.get("filename"): entry for entry in existing}`. -/
def build_existing_lookup (existing : List Entry) : List (String × Entry) :=
  existing.map (fun e => (e.filename, e))

/-- `provided_map.get(filename) or existing_lookup.get(filename)`;
dict values are non-empty dicts, hence always truthy. -/
def resolve_base (pmap emap : List (String × Entry)) (f : String) : Option Entry :=
  match dget pmap f with
  | some e => some e
  | none => dget emap f

/-- The `for idx, filename in enumerate(image_files)` loop of
`_normalize_image_metadata_payload`, carrying the index and the
`cover_seen` flag. -/
def normalize_loop (pmap emap : List (String × Entry)) :
    List String → Nat → Bool → Except PyErr (List Entry)
  | [], _, _ => .ok []
  | f :: rest, idx, cover_seen =>
    let entry := make_metadata_entry f idx (resolve_base pmap emap f)
    if entry.category = "cover" then
      if cover_seen then .error (.invalidUpload "仅允许设置一张封面图片")
      else do
        let tail ← normalize_loop pmap emap rest (idx + 1) true
        .ok ({ entry with figure_id := "" } :: tail)
    else
      let entry :=
        if (entry.category = "figure" ∨ entry.category = "subfigure") ∧ entry.figure_id = "" then
          { entry with figure_id := toString (idx + 1) }
        else entry
      do
        let tail ← normalize_loop pmap emap rest (idx + 1) cover_seen
        .ok (entry :: tail)

/-- The loop body of `LiteratureService._enforce_sequential_figure_ids`,
carrying `next_index` and `current_group_id`. -/
def enforce_loop : List Entry → Nat → String → List Entry
  | [], _, _ => []
  | e :: rest, next_index, current_group_id =>
    let category := if e.category = "" then "figure" else e.category
    if category = "cover" ∨ category = "ignore" then
      { e with figure_id := "" } :: enforce_loop rest next_index ""
    else if category = "subfigure" then
      let gid := if current_group_id = "" then toString next_index else current_group_id
      let next' := if current_group_id = "" then next_index + 1 else next_index
      { e with figure_id := gid } :: enforce_loop rest next' gid
    else
      { e with figure_id := toString next_index } ::
        enforce_loop rest (next_index + 1) (toString next_index)

/-- `LiteratureService._enforce_sequential_figure_ids`: counter starts
at 1, current group id starts empty. -/
def enforce_sequential_figure_ids (metadata : List Entry) : List Entry :=
  enforce_loop metadata 1 ""

/-- `LiteratureService._normalize_image_metadata_payload`.  A `None`
payload is replaced by `[]` upstream and a non-list payload raises
before this point; the payload is therefore taken as a list of items. -/
def normalize_image_metadata_payload (payload : List PatchItem) (image_files : List String)
    (existing_metadata : List Entry) : Except PyErr (List Entry) :=
  if image_files.isEmpty then .ok []
  else do
    let pmap ← build_provided_map payload
    let emap := build_existing_lookup existing_metadata
    let normalized ← normalize_loop pmap emap image_files 0 false
    .ok (enforce_sequential_figure_ids normalized)

/-- `LiteratureService._default_image_metadata`. -/
def default_image_metadata (image_files : List String)
    (existing_metadata : Option (List Entry)) : List Entry :=
  if image_files.isEmpty then []
  else
    let lookup := build_existing_lookup (existing_metadata.getD [])
    image_files.enum.map (fun p => make_metadata_entry p.2 p.1 (dget lookup p.2))

/-! ## Record store (`db_manager.LiteratureRepository`) -/

/-- The JSON analysis file of one record.  `none` fields model absent
keys; `extra` carries the remaining fields verbatim. -/
structure RecordData where
  image_files : Option (List String)
  image_metadata : Option (List Entry)
  custom_tags : Option (List String)
  extra : List (String × String)
deriving DecidableEq

/-- The on-disk file plus a write counter standing in for byte content
identity and modification time. -/
structure FileState where
  data : RecordData
  version : Nat
deriving DecidableEq

/-- The storage unit of one record id: `none` when absent. -/
abbrev Store := Option FileState

/-- `if 'custom_tags' not in data: data['custom_tags'] = []`. -/
def ensure_custom_tags (r : RecordData) : RecordData :=
  match r.custom_tags with
  | none => { r with custom_tags := some [] }
  | some _ => r

/-- `LiteratureRepository._mutate_analysis_file`: read, ensure
`custom_tags`, apply the transform (a raising transform propagates and
nothing is written), write back (`updated_data = f(data) or data`). -/
def mutate_analysis_file (st : Store) (f : RecordData → Except PyErr (Option RecordData)) :
    Except PyErr RecordData × Store :=
  match st with
  | none => (.error (.fileNotFound "Record not found"), none)
  | some fs =>
    let data := ensure_custom_tags fs.data
    match f data with
    | .error e => (.error e, some fs)
    | .ok r =>
      let updated := r.getD data
      (.ok updated, some { data := updated, version := fs.version + 1 })

/-- `LiteratureRepository.update_image_metadata` (a falsy `metadata`
becomes `[]`, which on a list argument is the identity). -/
def repo_update_image_metadata (st : Store) (metadata : List Entry) :
    Except PyErr (List Entry) × Store :=
  let r := mutate_analysis_file st
    (fun data => .ok (some { data with image_metadata := some metadata }))
  (r.1.map (fun d => d.image_metadata.getD []), r.2)

/-- `LiteratureRepository.delete_literature_by_id`: removes the unit
when present; when absent it only logs a warning and raises nothing. -/
def delete_literature_by_id (st : Store) : Except PyErr Unit × Store :=
  match st with
  | some _ => (.ok (), none)
  | none => (.ok (), none)

/-- The `_add` transform of `LiteratureRepository.add_tag_to_literature`:
`if tag and tag not in data['custom_tags']: append`. -/
def add_tag_transform (tag : String) (data : RecordData) : Except PyErr (Option RecordData) :=
  match data.custom_tags with
  | none => .error (.keyError "custom_tags")
  | some tags =>
    let tags2 := if tag ≠ "" ∧ tag ∉ tags then tags ++ [tag] else tags
    .ok (some { data with custom_tags := some tags2 })

/-- `LiteratureRepository.add_tag_to_literature`. -/
def add_tag_to_literature (st : Store) (tag : String) : Except PyErr (List String) × Store :=
  let r := mutate_analysis_file st (add_tag_transform tag)
  (r.1.map (fun d => d.custom_tags.getD []), r.2)

/-- Python `dict.fromkeys(l)` order-preserving de-duplication: the
first occurrence of each value is kept. -/
def py_dedup_aux (seen : List String) : List String → List String
  | [] => []
  | t :: rest =>
    if t ∈ seen then py_dedup_aux seen rest
    else t :: py_dedup_aux (t :: seen) rest

/-- `list(dict.fromkeys(l))`. -/
def py_dict_fromkeys (l : List String) : List String := py_dedup_aux [] l

/-- The per-record body of `LiteratureRepository.rename_tag_globally`:
records whose tag list is empty or lacks `old` are skipped without any
write; otherwise every occurrence of `old` is replaced by `new`, the
list is de-duplicated keeping first occurrences, and the file is
rewritten (`isinstance(t, str)` always holds in this model). -/
def rename_record (old new : String) (fs : FileState) : FileState :=
  let tags := fs.data.custom_tags.getD []
  if tags = [] ∨ old ∉ tags then fs
  else
    let updated := tags.map (fun t => if t = old then new else t)
    let deduped := py_dict_fromkeys updated
    { data := { fs.data with custom_tags := some deduped }, version := fs.version + 1 }

/-- `LiteratureRepository.rename_tag_globally` over the corpus, a list
of `(paper_id, file)` pairs in directory-listing order (unreadable
records, skipped by the source, are outside this model). -/
def rename_tag_globally (old new : String) (corpus : List (String × FileState)) :
    List (String × FileState) :=
  if old = "" ∨ new = "" then corpus
  else corpus.map (fun p => (p.1, rename_record old new p.2))

/-! ## Service layer (`services/literature_service.LiteratureService`) -/

/-- `LiteratureService.get_literature`: a missing (or unreadable,
hence `None`) record raises `NotFoundError`. -/
def get_literature (paper_id : String) (st : Store) : Except PyErr RecordData :=
  match st with
  | none => .error (.notFoundError ("Record " ++ paper_id ++ " not found"))
  | some fs => .ok fs.data

/-- `LiteratureService.update_image_metadata`: load, normalize against
the record's `image_files` and current metadata, persist, return the
normalized list. -/
def update_image_metadata (paper_id : String) (st : Store) (payload : List PatchItem) :
    Except PyErr (List Entry) × Store :=
  match get_literature paper_id st with
  | .error e => (.error e, st)
  | .ok record =>
    match normalize_image_metadata_payload payload (record.image_files.getD [])
        (record.image_metadata.getD []) with
    | .error e => (.error e, st)
    | .ok normalized =>
      let r := repo_update_image_metadata st normalized
      match r.1 with
      | .error e => (.error e, r.2)
      | .ok _ => (.ok normalized, r.2)

/-- `LiteratureService.get_image_metadata`: a falsy stored metadata
(absent key or empty list) is replaced by the default list, which is
written back before being returned. -/
def get_image_metadata (paper_id : String) (st : Store) : Except PyErr (List Entry) × Store :=
  match get_literature paper_id st with
  | .error e => (.error e, st)
  | .ok record =>
    let metadata := record.image_metadata.getD []
    if metadata.isEmpty then
      let d := default_image_metadata (record.image_files.getD []) none
      let r := repo_update_image_metadata st d
      match r.1 with
      | .error e => (.error e, r.2)
      | .ok _ => (.ok d, r.2)
    else (.ok metadata, st)

/-- `LiteratureService.delete_literature` delegates to the repository
unchanged. -/
def delete_literature (_paper_id : String) (st : Store) : Except PyErr Unit × Store :=
  delete_literature_by_id st

/-- `LiteratureService.add_tag`: delegates to the repository,
translating `FileNotFoundError` into `NotFoundError`. -/
def add_tag (paper_id : String) (st : Store) (tag : String) :
    Except PyErr (List String) × Store :=
  match add_tag_to_literature st tag with
  | (.error (.fileNotFound _), st') =>
    (.error (.notFoundError ("Record " ++ paper_id ++ " not found")), st')
  | r => r

/-! ## Derived helpers (each provably a projection of a source function) -/

/-- The category that `_make_metadata_entry` assigns for a given
resolved base entry (which is independent of the position index);
see `make_metadata_entry_category`. -/
def resolved_category (b : Option Entry) : String :=
  let c := match b with
    | some e => if e.category = "" then "figure" else e.category
    | none => "figure"
  if ALLOWED_IMAGE_CATEGORIES.contains c then c else "figure"

/-- The label that `_make_metadata_entry` assigns for a given resolved
base entry; see `make_metadata_entry_label`. -/
def resolved_label (b : Option Entry) : String :=
  match b with
  | some e => pyStrip e.label
  | none => ""

/-- Number of files whose resolved candidate entry (patch entry if
present, else prior entry, else default) has category `cover`. -/
def resolved_cover_count (pmap emap : List (String × Entry)) (files : List String) : Nat :=
  files.countP (fun f => resolved_category (resolve_base pmap emap f) == "cover")

/-- A payload item that `_normalize_image_metadata_payload` rejects:
not an object, or with a missing/empty filename. -/
def is_malformed_item : PatchItem → Bool
  | .notDict => true
  | .dict none _ _ _ => true
  | .dict (some f) _ _ _ => f == ""

/-- The `figure_id` sequence that `_enforce_sequential_figure_ids`
assigns, as a function of the category sequence alone; see
`enforce_loop_map_figure_id`. -/
def assign_fids : List String → Nat → String → List String
  | [], _, _ => []
  | c0 :: rest, next_index, current_group_id =>
    let category := if c0 = "" then "figure" else c0
    if category = "cover" ∨ category = "ignore" then
      "" :: assign_fids rest next_index ""
    else if category = "subfigure" then
      let gid := if current_group_id = "" then toString next_index else current_group_id
      let next' := if current_group_id = "" then next_index + 1 else next_index
      gid :: assign_fids rest next' gid
    else
      toString next_index :: assign_fids rest (next_index + 1) (toString next_index)

/-! ## Lemmas about `pyStrip` -/

theorem dropWhile_dropWhile_self (p : Char → Bool) (l : List Char) :
    (l.dropWhile p).dropWhile p = l.dropWhile p := by
  induction l with
  | nil => rfl
  | cons x t ih =>
    by_cases h : p x
    · simpa [List.dropWhile, h] using ih
    · simp [List.dropWhile, h]

theorem dropWhile_head_false (p : Char → Bool) (l : List Char) :
    l.dropWhile p = [] ∨ ∃ x t, l.dropWhile p = x :: t ∧ p x = false := by
  induction l with
  | nil => exact .inl rfl
  | cons x t ih =>
    by_cases h : p x
    · simpa [List.dropWhile, h] using ih
    · exact .inr ⟨x, t, by simp [List.dropWhile, h], by simp [h]⟩

theorem pyStripList_idem (l : List Char) : pyStripList (pyStripList l) = pyStripList l := by
  unfold pyStripList
  rcases h0 : l.dropWhile isPySpace with _ | ⟨x, t⟩
  · simp
  · have hx : isPySpace x = false := by
      rcases dropWhile_head_false isPySpace l with h | ⟨x', t', hxt, hx'⟩
      · rw [h0] at h; cases h
      · rw [h0] at hxt
        cases hxt
        exact hx'
    rcases hb : (x :: t).reverse.dropWhile isPySpace with _ | ⟨y, u⟩
    · simp [hb]
    · have hy : isPySpace y = false := by
        rcases dropWhile_head_false isPySpace (x :: t).reverse with h | ⟨y', u', hyu, hy'⟩
        · rw [hb] at h; cases h
        · rw [hb] at hyu
          cases hyu
          exact hy'
      -- the right-trimmed list is an initial segment of x :: t
      have hdecomp : (x :: t).reverse.takeWhile isPySpace ++ (y :: u) = (x :: t).reverse := by
        rw [← hb]
        exact List.takeWhile_append_dropWhile isPySpace (x :: t).reverse
      have hpre : (y :: u).reverse ++ ((x :: t).reverse.takeWhile isPySpace).reverse
          = x :: t := by
        have h1 := congrArg List.reverse hdecomp
        simpa using h1
      rcases hm : (y :: u).reverse with _ | ⟨z, m'⟩
      · exact absurd (congrArg List.length hm) (by simp)
      · have hz : z = x := by
          rw [hm, List.cons_append] at hpre
          exact (List.cons.injEq _ _ _ _ ▸ hpre).1
        have step1 : (z :: m').dropWhile isPySpace = z :: m' := by
          simp [List.dropWhile, hz, hx]
        rw [step1]
        have step2 : (z :: m').reverse = y :: u := by
          rw [← hm, List.reverse_reverse]
        rw [step2]
        have step3 : (y :: u).dropWhile isPySpace = y :: u := by
          simp [List.dropWhile, hy]
        rw [step3, hm]

theorem pyStrip_idem (s : String) : pyStrip (pyStrip s) = pyStrip s :=
  congrArg String.mk (pyStripList_idem s.data)

theorem pyStrip_empty : pyStrip "" = "" := rfl

/-! ## Projection lemmas for the normalizer -/

@[simp] theorem entry_set_fid_filename (e : Entry) (x : String) :
    ({ e with figure_id := x } : Entry).filename = e.filename := rfl

@[simp] theorem entry_set_fid_label (e : Entry) (x : String) :
    ({ e with figure_id := x } : Entry).label = e.label := rfl

@[simp] theorem entry_set_fid_category (e : Entry) (x : String) :
    ({ e with figure_id := x } : Entry).category = e.category := rfl

@[simp] theorem entry_set_fid_figure_id (e : Entry) (x : String) :
    ({ e with figure_id := x } : Entry).figure_id = x := rfl

theorem make_metadata_entry_filename (f : String) (i : Nat) (b : Option Entry) :
    (make_metadata_entry f i b).filename = f := rfl

theorem make_metadata_entry_label (f : String) (i : Nat) (b : Option Entry) :
    (make_metadata_entry f i b).label = resolved_label b := rfl

theorem make_metadata_entry_category (f : String) (i : Nat) (b : Option Entry) :
    (make_metadata_entry f i b).category = resolved_category b := rfl

theorem resolved_category_allowed (b : Option Entry) :
    ALLOWED_IMAGE_CATEGORIES.contains (resolved_category b) = true := by
  have key : ∀ c : String,
      ALLOWED_IMAGE_CATEGORIES.contains
        (if ALLOWED_IMAGE_CATEGORIES.contains c = true then c else "figure") = true := by
    intro c
    by_cases h : ALLOWED_IMAGE_CATEGORIES.contains c = true
    · rw [if_pos h]
      exact h
    · rw [if_neg h]
      decide
  cases b with
  | none => exact key "figure"
  | some e => exact key (if e.category = "" then "figure" else e.category)

theorem allowed_ne_empty (s : String)
    (h : ALLOWED_IMAGE_CATEGORIES.contains s = true) : s ≠ "" := by
  intro he
  subst he
  exact absurd h (by decide)

theorem resolved_label_strip (b : Option Entry) :
    pyStrip (resolved_label b) = resolved_label b := by
  cases b with
  | none => exact pyStrip_empty
  | some e => exact pyStrip_idem e.label

/-! ## Characterizing `_enforce_sequential_figure_ids` -/

theorem enforce_loop_map_filename (l : List Entry) : ∀ (n : Nat) (cur : String),
    (enforce_loop l n cur).map (·.filename) = l.map (·.filename) := by
  induction l with
  | nil => intro n cur; rfl
  | cons e rest ih =>
    intro n cur
    simp only [enforce_loop, List.map_cons]
    split
    · simp [ih]
    · split
      · simp [ih]
      · split
        · simp [ih]
        · simp [ih]

theorem enforce_loop_map_label (l : List Entry) : ∀ (n : Nat) (cur : String),
    (enforce_loop l n cur).map (·.label) = l.map (·.label) := by
  induction l with
  | nil => intro n cur; rfl
  | cons e rest ih =>
    intro n cur
    simp only [enforce_loop, List.map_cons]
    split
    · simp [ih]
    · split
      · simp [ih]
      · split
        · simp [ih]
        · simp [ih]

theorem enforce_loop_map_category (l : List Entry) : ∀ (n : Nat) (cur : String),
    (enforce_loop l n cur).map (·.category) = l.map (·.category) := by
  induction l with
  | nil => intro n cur; rfl
  | cons e rest ih =>
    intro n cur
    simp only [enforce_loop, List.map_cons]
    split
    · simp [ih]
    · split
      · simp [ih]
      · split
        · simp [ih]
        · simp [ih]

theorem enforce_loop_map_figure_id (l : List Entry) : ∀ (n : Nat) (cur : String),
    (enforce_loop l n cur).map (·.figure_id) = assign_fids (l.map (·.category)) n cur := by
  induction l with
  | nil => intro n cur; rfl
  | cons e rest ih =>
    intro n cur
    simp only [enforce_loop, assign_fids, List.map_cons]
    split
    · simp [ih]
    · split
      · simp [ih]
      · split
        · simp [ih]
        · simp [ih]

theorem entry_list_ext (l1 : List Entry) : ∀ (l2 : List Entry),
    l1.map (·.filename) = l2.map (·.filename) →
    l1.map (·.figure_id) = l2.map (·.figure_id) →
    l1.map (·.label) = l2.map (·.label) →
    l1.map (·.category) = l2.map (·.category) → l1 = l2 := by
  induction l1 with
  | nil =>
    intro l2 h1 _ _ _
    cases l2 with
    | nil => rfl
    | cons e r => simp at h1
  | cons e r ih =>
    intro l2 h1 h2 h3 h4
    cases l2 with
    | nil => simp at h1
    | cons e' r' =>
      simp only [List.map_cons, List.cons.injEq] at h1 h2 h3 h4
      have he : e = e' := by
        cases e
        cases e'
        simp_all
      rw [he, ih r' h1.2 h2.2 h3.2 h4.2]

/-! ## Characterizing the normalize loop -/

@[simp] theorem except_bind_ok {ε α β : Type} (a : α) (f : α → Except ε β) :
    (Except.ok a : Except ε α) >>= f = f a := rfl

@[simp] theorem except_bind_error {ε α β : Type} (e : ε) (f : α → Except ε β) :
    (Except.error e : Except ε α) >>= f = (Except.error e : Except ε β) := rfl

@[simp] theorem ite_entry_filename (P : Prop) [Decidable P] (x : String) (e : Entry) :
    ((if P then { e with figure_id := x } else e) : Entry).filename = e.filename := by
  split <;> rfl

@[simp] theorem ite_entry_label (P : Prop) [Decidable P] (x : String) (e : Entry) :
    ((if P then { e with figure_id := x } else e) : Entry).label = e.label := by
  split <;> rfl

@[simp] theorem ite_entry_category (P : Prop) [Decidable P] (x : String) (e : Entry) :
    ((if P then { e with figure_id := x } else e) : Entry).category = e.category := by
  split <;> rfl

theorem normalize_loop_ok_shape (pmap emap : List (String × Entry)) (files : List String) :
    ∀ (idx : Nat) (seen : Bool) (out : List Entry),
    normalize_loop pmap emap files idx seen = .ok out →
    out.map (·.filename) = files ∧
    out.map (·.category) = files.map (fun f => resolved_category (resolve_base pmap emap f)) ∧
    out.map (·.label) = files.map (fun f => resolved_label (resolve_base pmap emap f)) ∧
    out.countP (fun e => e.category == "cover") + (if seen then 1 else 0) ≤ 1 := by
  induction files with
  | nil =>
    intro idx seen out h
    simp only [normalize_loop] at h
    cases h
    refine ⟨rfl, rfl, rfl, ?_⟩
    cases seen <;> simp
  | cons f rest ih =>
    intro idx seen out h
    simp only [normalize_loop] at h
    by_cases hc : (make_metadata_entry f idx (resolve_base pmap emap f)).category = "cover"
    · rw [if_pos hc] at h
      by_cases hs : seen = true
      · rw [if_pos hs] at h
        exact Except.noConfusion h
      · rw [if_neg hs] at h
        have hs' : seen = false := by
          cases seen
          · rfl
          · exact absurd rfl hs
        cases h' : normalize_loop pmap emap rest (idx + 1) true with
        | error e =>
          rw [h'] at h
          simp only [except_bind_error] at h
          exact Except.noConfusion h
        | ok tail =>
          rw [h'] at h
          simp only [except_bind_ok] at h
          cases h
          obtain ⟨ih1, ih2, ih3, ih4⟩ := ih (idx + 1) true tail h'
          refine ⟨?_, ?_, ?_, ?_⟩
          · simp only [List.map_cons, List.cons.injEq]
            exact ⟨by simp [make_metadata_entry_filename], ih1⟩
          · simp only [List.map_cons, List.cons.injEq]
            exact ⟨by simp [make_metadata_entry_category], ih2⟩
          · simp only [List.map_cons, List.cons.injEq]
            exact ⟨by simp [make_metadata_entry_label], ih3⟩
          · subst hs'
            simp only [List.countP_cons]
            simp only [if_true] at ih4
            rw [hc]
            have ha : ((("cover" : String) == "cover") = true) := by decide
            rw [if_pos ha, if_neg Bool.false_ne_true]
            omega
    · rw [if_neg hc] at h
      cases h' : normalize_loop pmap emap rest (idx + 1) seen with
      | error e =>
        rw [h'] at h
        simp only [except_bind_error] at h
        exact Except.noConfusion h
      | ok tail =>
        rw [h'] at h
        simp only [except_bind_ok] at h
        cases h
        obtain ⟨ih1, ih2, ih3, ih4⟩ := ih (idx + 1) seen tail h'
        refine ⟨?_, ?_, ?_, ?_⟩
        · simp only [List.map_cons, List.cons.injEq]
          refine ⟨?_, ih1⟩
          split <;> simp [make_metadata_entry_filename]
        · simp only [List.map_cons, List.cons.injEq]
          refine ⟨?_, ih2⟩
          split <;> simp [make_metadata_entry_category]
        · simp only [List.map_cons, List.cons.injEq]
          refine ⟨?_, ih3⟩
          split <;> simp [make_metadata_entry_label]
        · simp only [List.countP_cons]
          have hne : (((if ((make_metadata_entry f idx (resolve_base pmap emap f)).category = "figure" ∨
                  (make_metadata_entry f idx (resolve_base pmap emap f)).category = "subfigure") ∧
                  (make_metadata_entry f idx (resolve_base pmap emap f)).figure_id = "" then
                { make_metadata_entry f idx (resolve_base pmap emap f) with
                  figure_id := toString (idx + 1) }
              else make_metadata_entry f idx (resolve_base pmap emap f)).category
              == "cover") = false) := by
            split <;> simp [hc]
          rw [hne, if_neg Bool.false_ne_true]
          simpa using ih4

theorem ite_true_one : (if (true : Bool) = true then (1 : Nat) else 0) = 1 := rfl

theorem ite_false_zero : (if (false : Bool) = true then (1 : Nat) else 0) = 0 := rfl

theorem normalize_loop_error_two (pmap emap : List (String × Entry)) (files : List String) :
    ∀ (idx : Nat) (seen : Bool),
    2 ≤ files.countP (fun f => resolved_category (resolve_base pmap emap f) == "cover")
        + (if seen then 1 else 0) →
    normalize_loop pmap emap files idx seen
      = .error (.invalidUpload "仅允许设置一张封面图片") := by
  induction files with
  | nil =>
    intro idx seen h2
    exfalso
    cases seen <;> simp at h2
  | cons f rest ih =>
    intro idx seen h2
    simp only [List.countP_cons] at h2
    simp only [normalize_loop]
    by_cases hc : (make_metadata_entry f idx (resolve_base pmap emap f)).category = "cover"
    · have hrc : (resolved_category (resolve_base pmap emap f) == "cover") = true := by
        rw [← make_metadata_entry_category f idx]
        simp [hc]
      rw [hrc] at h2
      rw [if_pos hc]
      cases seen with
      | true => simp
      | false =>
        rw [if_neg Bool.false_ne_true]
        rw [ite_true_one, ite_false_zero] at h2
        rw [ih (idx + 1) true (by rw [ite_true_one]; omega)]
        rfl
    · have hrc : (resolved_category (resolve_base pmap emap f) == "cover") = false := by
        rw [← make_metadata_entry_category f idx]
        simp [hc]
      rw [hrc] at h2
      rw [if_neg hc]
      rw [ite_false_zero] at h2
      rw [ih (idx + 1) seen (by omega)]
      rfl

theorem normalize_loop_ok_exists (pmap emap : List (String × Entry)) (files : List String) :
    ∀ (idx : Nat) (seen : Bool),
    files.countP (fun f => resolved_category (resolve_base pmap emap f) == "cover")
      + (if seen then 1 else 0) ≤ 1 →
    ∃ out, normalize_loop pmap emap files idx seen = .ok out := by
  induction files with
  | nil =>
    intro idx seen _
    exact ⟨[], rfl⟩
  | cons f rest ih =>
    intro idx seen h1
    simp only [List.countP_cons] at h1
    simp only [normalize_loop]
    by_cases hc : (make_metadata_entry f idx (resolve_base pmap emap f)).category = "cover"
    · have hrc : (resolved_category (resolve_base pmap emap f) == "cover") = true := by
        rw [← make_metadata_entry_category f idx]
        simp [hc]
      rw [hrc] at h1
      cases seen with
      | true =>
        exfalso
        rw [ite_true_one] at h1
        omega
      | false =>
        rw [ite_true_one, ite_false_zero] at h1
        rw [if_pos hc, if_neg Bool.false_ne_true]
        obtain ⟨tail, ht⟩ := ih (idx + 1) true (by rw [ite_true_one]; omega)
        exact ⟨_, by rw [ht]; rfl⟩
    · have hrc : (resolved_category (resolve_base pmap emap f) == "cover") = false := by
        rw [← make_metadata_entry_category f idx]
        simp [hc]
      rw [hrc] at h1
      rw [ite_false_zero] at h1
      rw [if_neg hc]
      obtain ⟨tail, ht⟩ := ih (idx + 1) seen (by omega)
      exact ⟨_, by rw [ht]; rfl⟩

theorem build_provided_map_error_of_malformed (payload : List PatchItem) :
    (∃ item ∈ payload, is_malformed_item item = true) →
    ∃ msg, build_provided_map payload = .error (.invalidUpload msg) := by
  induction payload with
  | nil =>
    intro h
    rcases h with ⟨item, hm, _⟩
    cases hm
  | cons it rest ih =>
    intro h
    cases it with
    | notDict => exact ⟨_, rfl⟩
    | dict fn fid lbl cat =>
      cases fn with
      | none => exact ⟨_, rfl⟩
      | some f =>
        by_cases hf : f = ""
        · refine ⟨"图片元数据缺少文件名", ?_⟩
          simp [build_provided_map, hf]
        · rcases h with ⟨item, hmem, hmal⟩
          rcases List.mem_cons.mp hmem with heq | hrest
          · exfalso
            subst heq
            exact hf (by simpa [is_malformed_item] using hmal)
          · obtain ⟨msg, hmsg⟩ := ih ⟨item, hrest, hmal⟩
            refine ⟨msg, ?_⟩
            simp [build_provided_map, hf, hmsg]

theorem dget_build_existing_some (l : List Entry) (f : String)
    (h : ∃ e ∈ l, e.filename = f) :
    ∃ b, dget (build_existing_lookup l) f = some b ∧ b ∈ l ∧ b.filename = f := by
  have hsome : ((build_existing_lookup l).reverse.find? (fun p => p.1 == f)).isSome := by
    rw [List.find?_isSome]
    rcases h with ⟨e, he, hef⟩
    refine ⟨(e.filename, e), ?_, by simp [hef]⟩
    rw [List.mem_reverse]
    exact List.mem_map.mpr ⟨e, he, rfl⟩
  rcases Option.isSome_iff_exists.mp hsome with ⟨p, hp⟩
  have hmem := List.mem_of_find?_eq_some hp
  have hpred := List.find?_some hp
  rw [List.mem_reverse] at hmem
  rcases List.mem_map.mp hmem with ⟨a, ha, hpa⟩
  subst hpa
  refine ⟨a, ?_, ha, ?_⟩
  · simp [dget, hp]
  · simpa using hpred

theorem resolve_base_nil_pmap (emap : List (String × Entry)) (f : String) :
    resolve_base [] emap f = dget emap f := rfl

theorem normalize_ok_cases (payload : List PatchItem) (files : List String)
    (existing : List Entry) (out : List Entry)
    (h : normalize_image_metadata_payload payload files existing = .ok out) :
    (files = [] ∧ out = []) ∨
    ∃ pmap x, build_provided_map payload = .ok pmap ∧
      normalize_loop pmap (build_existing_lookup existing) files 0 false = .ok x ∧
      out = enforce_sequential_figure_ids x := by
  by_cases he : files.isEmpty
  · left
    refine ⟨List.isEmpty_iff.mp he, ?_⟩
    unfold normalize_image_metadata_payload at h
    rw [if_pos he] at h
    cases h
    rfl
  · right
    unfold normalize_image_metadata_payload at h
    rw [if_neg he] at h
    cases hb : build_provided_map payload with
    | error e =>
      rw [hb] at h
      simp only [except_bind_error] at h
      exact Except.noConfusion h
    | ok pmap =>
      rw [hb] at h
      simp only [except_bind_ok] at h
      cases hl : normalize_loop pmap (build_existing_lookup existing) files 0 false with
      | error e =>
        rw [hl] at h
        simp only [except_bind_error] at h
        exact Except.noConfusion h
      | ok x =>
        rw [hl] at h
        simp only [except_bind_ok] at h
        cases h
        exact ⟨pmap, x, rfl, hl, rfl⟩

theorem normalize_ok_filenames (payload : List PatchItem) (files : List String)
    (existing : List Entry) (out : List Entry)
    (h : normalize_image_metadata_payload payload files existing = .ok out) :
    out.map (·.filename) = files := by
  rcases normalize_ok_cases payload files existing out h with ⟨hf, ho⟩ | ⟨pmap, x, _, hl, hout⟩
  · subst hf
    subst ho
    rfl
  · have hx := (normalize_loop_ok_shape pmap (build_existing_lookup existing) files 0 false x hl).1
    subst hout
    calc (enforce_sequential_figure_ids x).map (·.filename)
        = x.map (·.filename) := enforce_loop_map_filename x 1 ""
      _ = files := hx

theorem ensure_custom_tags_image_files (r : RecordData) :
    (ensure_custom_tags r).image_files = r.image_files := by
  unfold ensure_custom_tags
  split <;> rfl

theorem ensure_custom_tags_image_metadata (r : RecordData) :
    (ensure_custom_tags r).image_metadata = r.image_metadata := by
  unfold ensure_custom_tags
  split <;> rfl

theorem ensure_custom_tags_tags (r : RecordData) :
    (ensure_custom_tags r).custom_tags.getD [] = r.custom_tags.getD [] := by
  unfold ensure_custom_tags
  split
  · rename_i heq
    rw [heq]
    rfl
  · rfl

/-! ## Claim theorems -/

/-- C1: the figure-id assignment pass walks the list left to right with
a counter starting at 1 and an empty current group id; cover/ignore
entries get an empty `figure_id` and reset the group, a subfigure with
no open group opens one from the counter, every subfigure receives the
open group id, and a figure entry takes the next counter value and
opens it as the group.  In particular, for any six entries with the
category sequence `[figure, subfigure, subfigure, figure, ignore,
subfigure]`, the assigned `figure_id` sequence is
`["1", "1", "1", "2", "", "3"]`. -/
theorem figure_id_assignment_example (e1 e2 e3 e4 e5 e6 : Entry)
    (h1 : e1.category = "figure") (h2 : e2.category = "subfigure")
    (h3 : e3.category = "subfigure") (h4 : e4.category = "figure")
    (h5 : e5.category = "ignore") (h6 : e6.category = "subfigure") :
    (enforce_sequential_figure_ids [e1, e2, e3, e4, e5, e6]).map (·.figure_id)
      = ["1", "1", "1", "2", "", "3"] := by
  show (enforce_loop [e1, e2, e3, e4, e5, e6] 1 "").map (·.figure_id) = _
  rw [enforce_loop_map_figure_id]
  simp only [List.map_cons, List.map_nil, h1, h2, h3, h4, h5, h6]
  decide

theorem figure_id_assignment_example_witness :
    (enforce_sequential_figure_ids
      [⟨"a.png", "", "", "figure"⟩, ⟨"b.png", "", "", "subfigure"⟩,
       ⟨"c.png", "", "", "subfigure"⟩, ⟨"d.png", "", "", "figure"⟩,
       ⟨"e.png", "", "", "ignore"⟩, ⟨"f.png", "", "", "subfigure"⟩]).map (·.figure_id)
      = ["1", "1", "1", "2", "", "3"] :=
  figure_id_assignment_example _ _ _ _ _ _ rfl rfl rfl rfl rfl rfl

/-- C5: a `mutate` call whose transform raises propagates that error
and performs no write: the on-disk file state (content and version)
is exactly the pre-call state. -/
theorem mutate_error_no_write (fs : FileState)
    (f : RecordData → Except PyErr (Option RecordData)) (e : PyErr)
    (h : f (ensure_custom_tags fs.data) = .error e) :
    mutate_analysis_file (some fs) f = (.error e, some fs) := by
  unfold mutate_analysis_file
  simp only [h]

theorem mutate_error_no_write_witness :
    mutate_analysis_file (some ⟨⟨some [], some [], some [], []⟩, 0⟩)
      (fun _ => .error (.invalidUpload "boom"))
      = (.error (.invalidUpload "boom"), some ⟨⟨some [], some [], some [], []⟩, 0⟩) :=
  mutate_error_no_write ⟨⟨some [], some [], some [], []⟩, 0⟩
    (fun _ => .error (.invalidUpload "boom")) (.invalidUpload "boom") rfl

/-- C6 counterexample: deleting an absent record does NOT fail with
NotFound — `delete_literature_by_id` only logs a warning and the call
returns successfully. -/
theorem delete_absent_no_error :
    delete_literature "p1" none = (.ok (), none) := rfl

/-- C6 (amended): deleting an absent record is a silent no-op that
succeeds (the repository only logs a warning); after deleting a
record, a GET of the id fails NotFound, and a second delete of the
same id also succeeds as a no-op rather than failing NotFound. -/
theorem delete_absent_is_noop (pid : String) (st : Store) :
    delete_literature pid none = (.ok (), none) ∧
    (delete_literature pid st).2 = none ∧
    get_literature pid ((delete_literature pid st).2)
      = .error (.notFoundError ("Record " ++ pid ++ " not found")) ∧
    delete_literature pid ((delete_literature pid st).2) = (.ok (), none) := by
  refine ⟨rfl, ?_, ?_, ?_⟩ <;> cases st <;> rfl

/-- C7 counterexample: adding an empty-string tag to an existing record
is NOT rejected with InvalidArgument before reaching the store — the
call succeeds and the store file is rewritten (version bump 0 → 1). -/
theorem add_tag_empty_writes :
    add_tag "p1" (some ⟨⟨some [], some [], some ["x"], []⟩, 0⟩) ""
      = (.ok ["x"], some ⟨⟨some [], some [], some ["x"], []⟩, 1⟩) := rfl

/-- C7 (amended): an empty-string tag is not rejected: `addTag` reaches
the store and rewrites the record (bumping its version / modification
time) through the mutate cycle, but adds no tag — the returned tag
list equals the stored one, unchanged. -/
theorem add_tag_empty_no_reject (pid : String) (fs : FileState) (tag : String)
    (h : tag = "") :
    add_tag pid (some fs) tag
      = (.ok ((ensure_custom_tags fs.data).custom_tags.getD []),
         some ⟨ensure_custom_tags fs.data, fs.version + 1⟩) ∧
    (ensure_custom_tags fs.data).custom_tags.getD [] = fs.data.custom_tags.getD [] := by
  subst h
  obtain ⟨⟨ifl, imd, ct, ex⟩, v⟩ := fs
  cases ct <;> exact ⟨rfl, rfl⟩

theorem make_metadata_entry_none (f : String) (i : Nat) :
    make_metadata_entry f i none = ⟨f, toString (i + 1), "", "figure"⟩ := rfl

theorem default_enum_props (files : List String) : ∀ n : Nat,
    (((List.enumFrom n files).map
        (fun p => make_metadata_entry p.2 p.1 (dget (build_existing_lookup []) p.2))).map
          (·.filename) = files) ∧
    ∀ e ∈ (List.enumFrom n files).map
        (fun p => make_metadata_entry p.2 p.1 (dget (build_existing_lookup []) p.2)),
      e.category = "figure" := by
  induction files with
  | nil =>
    intro n
    exact ⟨rfl, by intro e he; cases he⟩
  | cons f rest ih =>
    intro n
    constructor
    · simp only [List.enumFrom, List.map_cons]
      rw [(ih (n + 1)).1]
      rfl
    · intro e he
      simp only [List.enumFrom, List.map_cons, List.mem_cons] at he
      rcases he with he | he
      · subst he
        rfl
      · exact (ih (n + 1)).2 e he

theorem default_image_metadata_props (files : List String) (h : files ≠ []) :
    (default_image_metadata files none).map (·.filename) = files ∧
    (default_image_metadata files none).length = files.length ∧
    ∀ e ∈ default_image_metadata files none, e.category = "figure" := by
  unfold default_image_metadata
  rw [if_neg (by simpa [List.isEmpty_iff] using h)]
  refine ⟨(default_enum_props files 0).1, ?_, (default_enum_props files 0).2⟩
  simp

/-- C9: `getImageMetadata` is not side-effect-free: when the stored
`image_metadata` is absent or empty and `image_files` is non-empty, it
computes the default metadata list (one entry per filename, category
`figure`, sequential ids) and writes it back to the record before
returning it, bumping the record's version / modification time. -/
theorem get_image_metadata_writes_default (pid : String) (fs : FileState)
    (hmeta : fs.data.image_metadata = none ∨ fs.data.image_metadata = some [])
    (hne : fs.data.image_files.getD [] ≠ []) :
    get_image_metadata pid (some fs)
      = (.ok (default_image_metadata (fs.data.image_files.getD []) none),
         some ⟨{ ensure_custom_tags fs.data with
                  image_metadata :=
                    some (default_image_metadata (fs.data.image_files.getD []) none) },
               fs.version + 1⟩) ∧
    (default_image_metadata (fs.data.image_files.getD []) none).map (·.filename)
      = fs.data.image_files.getD [] ∧
    (default_image_metadata (fs.data.image_files.getD []) none).length
      = (fs.data.image_files.getD []).length ∧
    ∀ e ∈ default_image_metadata (fs.data.image_files.getD []) none,
      e.category = "figure" := by
  obtain ⟨hp1, hp2, hp3⟩ := default_image_metadata_props (fs.data.image_files.getD []) hne
  refine ⟨?_, hp1, hp2, hp3⟩
  have hempty : (fs.data.image_metadata.getD []).isEmpty = true := by
    rcases hmeta with h | h <;> rw [h] <;> rfl
  unfold get_image_metadata get_literature repo_update_image_metadata mutate_analysis_file
  simp only [hempty, if_pos]
  rfl

theorem get_image_metadata_writes_default_witness :
    (get_image_metadata "p1" (some ⟨⟨some ["a.png", "b.png"], none, some [], []⟩, 0⟩)
      = (.ok (default_image_metadata
            (((⟨some ["a.png", "b.png"], none, some [], []⟩ : RecordData)).image_files.getD [])
            none),
         some ⟨{ ensure_custom_tags (⟨some ["a.png", "b.png"], none, some [], []⟩ : RecordData) with
                  image_metadata :=
                    some (default_image_metadata
                      (((⟨some ["a.png", "b.png"], none, some [], []⟩ :
                          RecordData)).image_files.getD []) none) },
               0 + 1⟩)) ∧
    (default_image_metadata
        (((⟨some ["a.png", "b.png"], none, some [], []⟩ : RecordData)).image_files.getD [])
        none).map (·.filename)
      = ((⟨some ["a.png", "b.png"], none, some [], []⟩ : RecordData)).image_files.getD [] :=
  have h := get_image_metadata_writes_default "p1"
    ⟨⟨some ["a.png", "b.png"], none, some [], []⟩, 0⟩ (Or.inl rfl) (by decide)
  ⟨h.1, h.2.1⟩

theorem add_tag_empty_no_reject_witness :
    add_tag "p1" (some ⟨⟨some [], some [], some ["x"], []⟩, 0⟩) ""
      = (.ok ((ensure_custom_tags ⟨some [], some [], some ["x"], []⟩).custom_tags.getD []),
         some ⟨ensure_custom_tags ⟨some [], some [], some ["x"], []⟩, 0 + 1⟩) ∧
    (ensure_custom_tags ⟨some [], some [], some ["x"], []⟩).custom_tags.getD []
      = (⟨some [], some [], some ["x"], []⟩ : RecordData).custom_tags.getD [] :=
  add_tag_empty_no_reject "p1" ⟨⟨some [], some [], some ["x"], []⟩, 0⟩ "" rfl

theorem update_image_metadata_ok_inv (pid : String) (fs : FileState)
    (payload : List PatchItem) (out : List Entry) (st' : Store)
    (h : update_image_metadata pid (some fs) payload = (.ok out, st')) :
    normalize_image_metadata_payload payload (fs.data.image_files.getD [])
      (fs.data.image_metadata.getD []) = .ok out ∧
    st' = some ⟨{ ensure_custom_tags fs.data with image_metadata := some out },
                fs.version + 1⟩ := by
  simp only [update_image_metadata, get_literature] at h
  cases hn : normalize_image_metadata_payload payload (fs.data.image_files.getD [])
      (fs.data.image_metadata.getD []) with
  | error e =>
    rw [hn] at h
    simp at h
  | ok normalized =>
    rw [hn] at h
    simp only [repo_update_image_metadata, mutate_analysis_file] at h
    injection h with ha hb
    injection ha with ha
    subst ha
    subst hb
    exact ⟨rfl, rfl⟩

/-- C3: after every successful `updateImageMetadata` call, the record's
stored `image_metadata` is exactly the returned normalized list, which
has one entry per filename of `image_files`, in the same order, so
`len(image_metadata) == len(image_files)` holds afterward. -/
theorem update_image_metadata_length_invariant (pid : String) (st : Store)
    (payload : List PatchItem) (out : List Entry) (st' : Store)
    (h : update_image_metadata pid st payload = (.ok out, st')) :
    ∃ fs', st' = some fs' ∧ fs'.data.image_metadata = some out ∧
      out.map (·.filename) = fs'.data.image_files.getD [] ∧
      out.length = (fs'.data.image_files.getD []).length := by
  cases st with
  | none =>
    exfalso
    simp [update_image_metadata, get_literature] at h
  | some fs =>
    obtain ⟨hn, hst⟩ := update_image_metadata_ok_inv pid fs payload out st' h
    subst hst
    have hfiles : ({ ensure_custom_tags fs.data with
        image_metadata := some out } : RecordData).image_files = fs.data.image_files := by
      show (ensure_custom_tags fs.data).image_files = fs.data.image_files
      exact ensure_custom_tags_image_files fs.data
    have hmap := normalize_ok_filenames payload _ _ out hn
    refine ⟨_, rfl, rfl, ?_, ?_⟩
    · rw [hfiles]
      exact hmap
    · rw [hfiles, ← hmap]
      simp

theorem update_image_metadata_length_invariant_witness :
    ∃ fs', (some (⟨⟨some ["a.png"], some [⟨"a.png", "1", "", "figure"⟩], some [], []⟩, 1⟩ :
        FileState) : Store) = some fs' ∧
      fs'.data.image_metadata = some [(⟨"a.png", "1", "", "figure"⟩ : Entry)] ∧
      ([(⟨"a.png", "1", "", "figure"⟩ : Entry)]).map (·.filename)
        = fs'.data.image_files.getD [] ∧
      ([(⟨"a.png", "1", "", "figure"⟩ : Entry)]).length
        = (fs'.data.image_files.getD []).length :=
  update_image_metadata_length_invariant "p1"
    (some ⟨⟨some ["a.png"], none, some [], []⟩, 0⟩) [] [⟨"a.png", "1", "", "figure"⟩]
    (some ⟨⟨some ["a.png"], some [⟨"a.png", "1", "", "figure"⟩], some [], []⟩, 1⟩) rfl

/-- C2: when the resolved candidate entries (patch entry if present,
else prior entry, else default) contain two or more entries with
category `cover`, `updateImageMetadata` fails with InvalidArgument
("only one cover image allowed") and nothing is written: the record
store state is exactly the pre-call state. -/
theorem update_two_covers_invalid (pid : String) (fs : FileState)
    (payload : List PatchItem) (pmap : List (String × Entry))
    (hb : build_provided_map payload = .ok pmap)
    (h2 : 2 ≤ resolved_cover_count pmap
        (build_existing_lookup (fs.data.image_metadata.getD []))
        (fs.data.image_files.getD [])) :
    update_image_metadata pid (some fs) payload
      = (.error (.invalidUpload "仅允许设置一张封面图片"), some fs) := by
  have hne : ¬ (fs.data.image_files.getD []).isEmpty = true := by
    intro he
    rw [List.isEmpty_iff] at he
    rw [he] at h2
    simp [resolved_cover_count] at h2
  have hloop : normalize_loop pmap
      (build_existing_lookup (fs.data.image_metadata.getD []))
      (fs.data.image_files.getD []) 0 false
      = .error (.invalidUpload "仅允许设置一张封面图片") := by
    apply normalize_loop_error_two
    rw [ite_false_zero]
    unfold resolved_cover_count at h2
    omega
  have hnorm : normalize_image_metadata_payload payload (fs.data.image_files.getD [])
      (fs.data.image_metadata.getD [])
      = .error (.invalidUpload "仅允许设置一张封面图片") := by
    unfold normalize_image_metadata_payload
    rw [if_neg hne, hb]
    simp only [except_bind_ok]
    rw [hloop]
    rfl
  simp only [update_image_metadata, get_literature]
  rw [hnorm]

theorem update_two_covers_invalid_witness :
    update_image_metadata "p1" (some ⟨⟨some ["a.png", "b.png"], none, some [], []⟩, 0⟩)
      [PatchItem.dict (some "a.png") none none (some "cover"),
       PatchItem.dict (some "b.png") none none (some "cover")]
      = (.error (.invalidUpload "仅允许设置一张封面图片"),
         some ⟨⟨some ["a.png", "b.png"], none, some [], []⟩, 0⟩) :=
  update_two_covers_invalid "p1" ⟨⟨some ["a.png", "b.png"], none, some [], []⟩, 0⟩
    [PatchItem.dict (some "a.png") none none (some "cover"),
     PatchItem.dict (some "b.png") none none (some "cover")]
    [("a.png", ⟨"a.png", "", "", "cover"⟩), ("b.png", ⟨"b.png", "", "", "cover"⟩)]
    rfl (by decide)

/-- C10 counterexample: a patch item that is not an object does NOT
always fail the call with InvalidArgument — when the record's
`image_files` list is empty, normalize short-circuits to `[]` before
validating the patch, and the call succeeds. -/
theorem malformed_patch_empty_files_ok :
    update_image_metadata "p1" (some ⟨⟨some [], none, some [], []⟩, 0⟩) [PatchItem.notDict]
      = (.ok [], some ⟨⟨some [], some ([] : List Entry), some [], []⟩, 1⟩) := rfl

/-- C10 (amended): patch entries whose filename does not occur in the
record's `image_files` are silently dropped — a successful call returns
and persists only filenames drawn from `image_files`; and when
`image_files` is non-empty, a patch item that is not an object or lacks
a filename fails the whole call with InvalidArgument and leaves the
store untouched (when `image_files` is empty the patch is not validated
at all and `[]` is returned). -/
theorem update_patch_scope (pid : String) (fs : FileState) (payload : List PatchItem)
    (hne : fs.data.image_files.getD [] ≠ []) :
    (∀ out st', update_image_metadata pid (some fs) payload = (.ok out, st') →
      ∀ e ∈ out, e.filename ∈ fs.data.image_files.getD []) ∧
    ((∃ item ∈ payload, is_malformed_item item = true) →
      ∃ msg, update_image_metadata pid (some fs) payload
        = (.error (.invalidUpload msg), some fs)) := by
  constructor
  · intro out st' h e he
    obtain ⟨hn, _⟩ := update_image_metadata_ok_inv pid fs payload out st' h
    have hmap := normalize_ok_filenames payload _ _ out hn
    rw [← hmap]
    exact List.mem_map.mpr ⟨e, he, rfl⟩
  · intro hbad
    obtain ⟨msg, hmsg⟩ := build_provided_map_error_of_malformed payload hbad
    have hnorm : normalize_image_metadata_payload payload (fs.data.image_files.getD [])
        (fs.data.image_metadata.getD []) = .error (.invalidUpload msg) := by
      unfold normalize_image_metadata_payload
      rw [if_neg (by simpa [List.isEmpty_iff] using hne), hmsg]
      rfl
    refine ⟨msg, ?_⟩
    simp only [update_image_metadata, get_literature]
    rw [hnorm]

theorem update_patch_scope_witness :
    (∀ e ∈ [(⟨"a.png", "1", "", "figure"⟩ : Entry)],
      e.filename ∈ ((⟨some ["a.png"], none, some [], []⟩ : RecordData)).image_files.getD []) ∧
    (∃ msg, update_image_metadata "p1" (some ⟨⟨some ["a.png"], none, some [], []⟩, 0⟩)
      [PatchItem.notDict]
      = (.error (.invalidUpload msg), some ⟨⟨some ["a.png"], none, some [], []⟩, 0⟩)) :=
  ⟨(update_patch_scope "p1" ⟨⟨some ["a.png"], none, some [], []⟩, 0⟩ [] (by decide)).1
      [⟨"a.png", "1", "", "figure"⟩]
      (some ⟨⟨some ["a.png"], some [⟨"a.png", "1", "", "figure"⟩], some [], []⟩, 1⟩) rfl,
   (update_patch_scope "p1" ⟨⟨some ["a.png"], none, some [], []⟩, 0⟩ [PatchItem.notDict]
      (by decide)).2 ⟨PatchItem.notDict, by decide, by decide⟩⟩

/-! ## Lemmas about `dict.fromkeys` de-duplication (tag rename) -/

theorem py_dedup_aux_sublist : ∀ (l seen : List String), List.Sublist (py_dedup_aux seen l) l := by
  intro l
  induction l with
  | nil => intro seen; exact List.Sublist.refl []
  | cons t rest ih =>
    intro seen
    by_cases hts : t ∈ seen
    · rw [py_dedup_aux, if_pos hts]
      exact List.Sublist.cons t (ih seen)
    · rw [py_dedup_aux, if_neg hts]
      exact List.Sublist.cons₂ t (ih (t :: seen))

theorem py_dedup_aux_count_zero (x : String) : ∀ (l seen : List String), x ∈ seen →
    (py_dedup_aux seen l).count x = 0 := by
  intro l
  induction l with
  | nil => intro seen _; rfl
  | cons t rest ih =>
    intro seen hx
    by_cases hts : t ∈ seen
    · rw [py_dedup_aux, if_pos hts]
      exact ih seen hx
    · rw [py_dedup_aux, if_neg hts]
      rw [List.count_cons]
      have htx : (t == x) = false := by
        have : t ≠ x := fun he => hts (he ▸ hx)
        simpa using this
      rw [htx]
      rw [ih (t :: seen) (List.mem_cons.mpr (Or.inr hx))]
      rfl

theorem py_dedup_aux_count (x : String) : ∀ (l seen : List String), x ∉ seen →
    (py_dedup_aux seen l).count x = if x ∈ l then 1 else 0 := by
  intro l
  induction l with
  | nil => intro seen _; simp [py_dedup_aux]
  | cons t rest ih =>
    intro seen hx
    by_cases hts : t ∈ seen
    · rw [py_dedup_aux, if_pos hts]
      rw [ih seen hx]
      have htx : x ≠ t := fun he => hx (he ▸ hts)
      simp [List.mem_cons, htx]
    · rw [py_dedup_aux, if_neg hts]
      rw [List.count_cons]
      by_cases htx : t = x
      · subst htx
        rw [py_dedup_aux_count_zero t rest (t :: seen) (List.mem_cons.mpr (Or.inl rfl))]
        simp
      · have htxb : (t == x) = false := by simpa using htx
        rw [htxb]
        rw [ih (t :: seen) (by
          intro hmem
          rcases List.mem_cons.mp hmem with he | he
          · exact htx he.symm
          · exact hx he)]
        simp [List.mem_cons, Ne.symm htx]

theorem subst_not_mem_old (old new : String) (h3 : old ≠ new) (tags : List String) :
    old ∉ tags.map (fun t => if t = old then new else t) := by
  intro hmem
  rcases List.mem_map.mp hmem with ⟨t, _, hsub⟩
  by_cases ht : t = old
  · rw [if_pos ht] at hsub
    exact h3 hsub.symm
  · rw [if_neg ht] at hsub
    exact ht hsub

theorem rename_indexOf_aux (old new : String) (h3 : old ≠ new) :
    ∀ (tags seen : List String), old ∈ tags → new ∉ seen → old ∉ seen →
    (py_dedup_aux seen (tags.map (fun t => if t = old then new else t))).indexOf new
      = (py_dedup_aux seen (tags.take
          (tags.findIdx (fun t => t == old || t == new)))).length := by
  intro tags
  induction tags with
  | nil => intro seen h; cases h
  | cons t rest ih =>
    intro seen hmem hnews hos
    by_cases hp : (t == old || t == new) = true
    · have hor : t = old ∨ t = new := by simpa using hp
      have ht : (if t = old then new else t) = new := by
        rcases hor with h | h
        · rw [if_pos h]
        · by_cases hto : t = old
          · rw [if_pos hto]
          · rw [if_neg hto]
            exact h
      rw [List.findIdx_cons, hp]
      simp only [cond_true, List.take_zero]
      simp only [List.map_cons, ht]
      simp only [py_dedup_aux]
      rw [if_neg hnews]
      simp [List.indexOf_cons]
    · have hp' : (t == old || t == new) = false := by simpa using hp
      have hto : t ≠ old := by
        intro he
        subst he
        simp at hp'
      have htn : t ≠ new := by
        intro he
        subst he
        simp at hp'
      have hrest : old ∈ rest := by
        rcases List.mem_cons.mp hmem with he | he
        · exact absurd he.symm hto
        · exact he
      rw [List.findIdx_cons, hp']
      simp only [cond_false]
      rw [List.take_succ_cons]
      simp only [List.map_cons, if_neg hto]
      by_cases hts : t ∈ seen
      · simp only [py_dedup_aux]
        rw [if_pos hts, if_pos hts]
        exact ih seen hrest hnews hos
      · simp only [py_dedup_aux]
        rw [if_neg hts, if_neg hts]
        rw [List.indexOf_cons]
        have htnb : (t == new) = false := by simpa using htn
        rw [htnb]
        simp only [cond_false, List.length_cons]
        rw [ih (t :: seen) hrest
          (by
            intro hc
            rcases List.mem_cons.mp hc with he | he
            · exact htn he.symm
            · exact hnews he)
          (by
            intro hc
            rcases List.mem_cons.mp hc with he | he
            · exact hto he.symm
            · exact hos he)]

/-- C8 counterexample: with `oldTag = newTag = "a"`, a record that has
tag `"a"` still contains `oldTag` after `renameTagGlobally` (and the
record is even rewritten), so the claim as stated over every pair of
tags is false. -/
theorem rename_same_tag_keeps_old :
    rename_tag_globally "a" "a" [("p1", ⟨⟨none, none, some ["a"], []⟩, 0⟩)]
      = [("p1", ⟨⟨none, none, some ["a"], []⟩, 1⟩)] ∧
    "a" ∈ ((⟨⟨none, none, some ["a"], []⟩, 1⟩ : FileState)).data.custom_tags.getD [] :=
  ⟨rfl, by decide⟩

/-- C8 (amended): for every pair of distinct non-empty tags,
`renameTagGlobally` maps each record through `rename_record`; a record
not containing `oldTag` is completely untouched (not even rewritten:
same content and version); afterwards no record contains `oldTag`; and
every record that contained `oldTag` contains `newTag` exactly once,
in an order that is a sublist of the tag list with `oldTag` substituted
by `newTag`, with `newTag` sitting at the position of the first
occurrence of `oldTag`-or-`newTag` (later duplicates collapse onto it). -/
theorem rename_tag_globally_props (old new : String) (corpus : List (String × FileState))
    (h1 : old ≠ "") (h2 : new ≠ "") (h3 : old ≠ new) :
    rename_tag_globally old new corpus
      = corpus.map (fun p => (p.1, rename_record old new p.2)) ∧
    (∀ fs : FileState, old ∉ fs.data.custom_tags.getD [] →
      rename_record old new fs = fs) ∧
    (∀ fs : FileState, old ∉ (rename_record old new fs).data.custom_tags.getD []) ∧
    (∀ fs : FileState, old ∈ fs.data.custom_tags.getD [] →
      ((rename_record old new fs).data.custom_tags.getD []).count new = 1 ∧
      List.Sublist ((rename_record old new fs).data.custom_tags.getD [])
        ((fs.data.custom_tags.getD []).map (fun t => if t = old then new else t)) ∧
      ((rename_record old new fs).data.custom_tags.getD []).indexOf new
        = (py_dict_fromkeys ((fs.data.custom_tags.getD []).take
            ((fs.data.custom_tags.getD []).findIdx (fun t => t == old || t == new)))).length) := by
  refine ⟨?_, ?_, ?_, ?_⟩
  · unfold rename_tag_globally
    rw [if_neg (by
      intro hc
      rcases hc with hc | hc
      · exact h1 hc
      · exact h2 hc)]
  · intro fs hno
    simp only [rename_record]
    rw [if_pos (Or.inr hno)]
  · intro fs
    simp only [rename_record]
    by_cases hcond : fs.data.custom_tags.getD [] = [] ∨ old ∉ fs.data.custom_tags.getD []
    · rw [if_pos hcond]
      rcases hcond with hc | hc
      · rw [hc]
        intro h
        cases h
      · exact hc
    · rw [if_neg hcond]
      show old ∉ py_dict_fromkeys ((fs.data.custom_tags.getD []).map
        (fun t => if t = old then new else t))
      intro hmem
      exact subst_not_mem_old old new h3 _
        ((py_dedup_aux_sublist _ []).subset hmem)
  · intro fs hmem
    have hcond : ¬ (fs.data.custom_tags.getD [] = [] ∨
        old ∉ fs.data.custom_tags.getD []) := by
      intro hc
      rcases hc with hc | hc
      · rw [hc] at hmem
        cases hmem
      · exact hc hmem
    simp only [rename_record]
    rw [if_neg hcond]
    refine ⟨?_, ?_, ?_⟩
    · show (py_dict_fromkeys ((fs.data.custom_tags.getD []).map
        (fun t => if t = old then new else t))).count new = 1
      unfold py_dict_fromkeys
      rw [py_dedup_aux_count new _ [] (by intro h; cases h)]
      have hmem2 : new ∈ List.map (fun t => if t = old then new else t)
          (fs.data.custom_tags.getD []) :=
        List.mem_map.mpr ⟨old, hmem, by rw [if_pos rfl]⟩
      rw [if_pos hmem2]
    · exact py_dedup_aux_sublist _ []
    · exact rename_indexOf_aux old new h3 (fs.data.custom_tags.getD []) [] hmem
        (by intro h; cases h) (by intro h; cases h)

theorem countP_cover_comp (g : String → String) (files : List String) :
    (files.map g).countP (fun c => c == "cover")
      = files.countP (fun f => g f == "cover") := by
  rw [List.countP_map]
  rfl

theorem countP_cover_map_category (l : List Entry) :
    (l.map (·.category)).countP (fun c => c == "cover")
      = l.countP (fun e => e.category == "cover") := by
  rw [List.countP_map]
  rfl

/-- C4: normalization is idempotent — re-normalizing the output of a
successful normalize call over the same `image_files`, with that output
as prior metadata and an empty patch, returns the same list unchanged
(same filenames, figure_ids, labels and categories). -/
theorem normalize_idempotent (payload : List PatchItem) (files : List String)
    (existing : List Entry) (out : List Entry)
    (h : normalize_image_metadata_payload payload files existing = .ok out) :
    normalize_image_metadata_payload [] files out = .ok out := by
  by_cases hfe : files.isEmpty
  · have hout : out = [] := by
      unfold normalize_image_metadata_payload at h
      rw [if_pos hfe] at h
      cases h
      rfl
    subst hout
    unfold normalize_image_metadata_payload
    rw [if_pos hfe]
  · rcases normalize_ok_cases payload files existing out h with ⟨hf, _⟩ | ⟨pmap, x, _, hl, hout⟩
    · exfalso
      rw [hf] at hfe
      exact hfe rfl
    · obtain ⟨hx1, hx2, hx3, hx4⟩ :=
        normalize_loop_ok_shape pmap (build_existing_lookup existing) files 0 false x hl
      -- projections of the first result
      have hof : out.map (·.filename) = files := by
        rw [hout]
        calc (enforce_loop x 1 "").map (·.filename)
            = x.map (·.filename) := enforce_loop_map_filename x 1 ""
          _ = files := hx1
      have hoc : out.map (·.category) = files.map
          (fun f => resolved_category (resolve_base pmap (build_existing_lookup existing) f)) := by
        rw [hout]
        calc (enforce_loop x 1 "").map (·.category)
            = x.map (·.category) := enforce_loop_map_category x 1 ""
          _ = _ := hx2
      have hol : out.map (·.label) = files.map
          (fun f => resolved_label (resolve_base pmap (build_existing_lookup existing) f)) := by
        rw [hout]
        calc (enforce_loop x 1 "").map (·.label)
            = x.map (·.label) := enforce_loop_map_label x 1 ""
          _ = _ := hx3
      have hofid : out.map (·.figure_id)
          = assign_fids (x.map (·.category)) 1 "" := by
        rw [hout]
        exact enforce_loop_map_figure_id x 1 ""
      -- pointwise characterizations of the first result
      have hcat_pt : ∀ e ∈ out, e.category
          = resolved_category (resolve_base pmap (build_existing_lookup existing) e.filename) := by
        have hmm : out.map (·.category) = out.map (fun e =>
            resolved_category (resolve_base pmap (build_existing_lookup existing) e.filename)) := by
          rw [hoc, ← hof, List.map_map]
          rfl
        exact fun e he => List.map_eq_map_iff.mp hmm e he
      have hlab_pt : ∀ e ∈ out, e.label
          = resolved_label (resolve_base pmap (build_existing_lookup existing) e.filename) := by
        have hmm : out.map (·.label) = out.map (fun e =>
            resolved_label (resolve_base pmap (build_existing_lookup existing) e.filename)) := by
          rw [hol, ← hof, List.map_map]
          rfl
        exact fun e he => List.map_eq_map_iff.mp hmm e he
      -- the second pass resolves every file to an entry of `out` with the
      -- same category and label as the first pass
      have hpt : ∀ f ∈ files,
          resolved_category (resolve_base [] (build_existing_lookup out) f)
            = resolved_category (resolve_base pmap (build_existing_lookup existing) f) ∧
          resolved_label (resolve_base [] (build_existing_lookup out) f)
            = resolved_label (resolve_base pmap (build_existing_lookup existing) f) := by
        intro f hf
        have hex : ∃ e ∈ out, e.filename = f := by
          rw [← hof] at hf
          rcases List.mem_map.mp hf with ⟨e, he, hef⟩
          exact ⟨e, he, hef⟩
        obtain ⟨b, hbget, hbmem, hbf⟩ := dget_build_existing_some out f hex
        have hrb : resolve_base [] (build_existing_lookup out) f = some b := by
          rw [resolve_base_nil_pmap]
          exact hbget
        have hbc : b.category
            = resolved_category (resolve_base pmap (build_existing_lookup existing) f) := by
          rw [hcat_pt b hbmem, hbf]
        have hbl : b.label
            = resolved_label (resolve_base pmap (build_existing_lookup existing) f) := by
          rw [hlab_pt b hbmem, hbf]
        constructor
        · rw [hrb]
          have hall : ALLOWED_IMAGE_CATEGORIES.contains
              (resolved_category (resolve_base pmap (build_existing_lookup existing) f))
              = true := resolved_category_allowed _
          have hnem : resolved_category (resolve_base pmap (build_existing_lookup existing) f)
              ≠ "" := allowed_ne_empty _ hall
          show (let c := if b.category = "" then "figure" else b.category;
            if ALLOWED_IMAGE_CATEGORIES.contains c = true then c else "figure") = _
          simp only
          rw [hbc, if_neg hnem, hall, if_pos rfl]
        · rw [hrb]
          show pyStrip b.label = _
          rw [hbl]
          exact resolved_label_strip (resolve_base pmap (build_existing_lookup existing) f)
      -- cover count of the second pass is the cover count of `out`, ≤ 1
      have hcnt2 : files.countP (fun f =>
            resolved_category (resolve_base [] (build_existing_lookup out) f) == "cover")
          + (if (false : Bool) = true then 1 else 0) ≤ 1 := by
        rw [ite_false_zero]
        have he1 : files.countP (fun f =>
              resolved_category (resolve_base [] (build_existing_lookup out) f) == "cover")
            = files.countP (fun f =>
              resolved_category (resolve_base pmap (build_existing_lookup existing) f)
                == "cover") := by
          apply List.countP_congr
          intro f hf
          rw [(hpt f hf).1]
        rw [he1, ← countP_cover_comp, ← hx2, countP_cover_map_category]
        rw [ite_false_zero] at hx4
        omega
      obtain ⟨y, hy⟩ := normalize_loop_ok_exists [] (build_existing_lookup out) files 0 false hcnt2
      obtain ⟨hy1, hy2, hy3, _⟩ :=
        normalize_loop_ok_shape [] (build_existing_lookup out) files 0 false y hy
      -- the second loop output matches `x` on every projection used by enforce
      have hyc : y.map (·.category) = x.map (·.category) := by
        rw [hy2, hx2]
        apply List.map_eq_map_iff.mpr
        intro f hf
        exact (hpt f hf).1
      have hyl : y.map (·.label) = x.map (·.label) := by
        rw [hy3, hx3]
        apply List.map_eq_map_iff.mpr
        intro f hf
        exact (hpt f hf).2
      have hfinal : enforce_sequential_figure_ids y = out := by
        apply entry_list_ext
        · calc (enforce_loop y 1 "").map (·.filename)
              = y.map (·.filename) := enforce_loop_map_filename y 1 ""
            _ = files := hy1
            _ = out.map (·.filename) := hof.symm
        · calc (enforce_loop y 1 "").map (·.figure_id)
              = assign_fids (y.map (·.category)) 1 "" := enforce_loop_map_figure_id y 1 ""
            _ = assign_fids (x.map (·.category)) 1 "" := by rw [hyc]
            _ = out.map (·.figure_id) := hofid.symm
        · calc (enforce_loop y 1 "").map (·.label)
              = y.map (·.label) := enforce_loop_map_label y 1 ""
            _ = x.map (·.label) := hyl
            _ = files.map _ := hx3
            _ = out.map (·.label) := hol.symm
        · calc (enforce_loop y 1 "").map (·.category)
              = y.map (·.category) := enforce_loop_map_category y 1 ""
            _ = x.map (·.category) := hyc
            _ = files.map _ := hx2
            _ = out.map (·.category) := hoc.symm
      unfold normalize_image_metadata_payload
      rw [if_neg hfe]
      show (build_provided_map [] >>= fun pmap2 =>
        normalize_loop pmap2 (build_existing_lookup out) files 0 false >>= fun normalized =>
          Except.ok (enforce_sequential_figure_ids normalized)) = Except.ok out
      rw [show build_provided_map [] = Except.ok [] from rfl]
      rw [except_bind_ok, hy, except_bind_ok, hfinal]

theorem normalize_idempotent_witness :
    normalize_image_metadata_payload [] ["a.png", "b.png"]
      [⟨"a.png", "1", "", "figure"⟩, ⟨"b.png", "2", "", "figure"⟩]
      = .ok [⟨"a.png", "1", "", "figure"⟩, ⟨"b.png", "2", "", "figure"⟩] :=
  normalize_idempotent [] ["a.png", "b.png"] []
    [⟨"a.png", "1", "", "figure"⟩, ⟨"b.png", "2", "", "figure"⟩] rfl

theorem rename_tag_globally_props_witness :
    (rename_record "a" "b" ⟨⟨none, none, some ["x"], []⟩, 0⟩
      = ⟨⟨none, none, some ["x"], []⟩, 0⟩) ∧
    "a" ∉ (rename_record "a" "b" ⟨⟨none, none, some ["b", "a"], []⟩, 0⟩).data.custom_tags.getD [] ∧
    ((rename_record "a" "b" ⟨⟨none, none, some ["b", "a"], []⟩, 0⟩).data.custom_tags.getD
      []).count "b" = 1 :=
  have h := rename_tag_globally_props "a" "b" [] (by decide) (by decide) (by decide)
  ⟨h.2.1 ⟨⟨none, none, some ["x"], []⟩, 0⟩ (by decide),
   h.2.2.1 ⟨⟨none, none, some ["b", "a"], []⟩, 0⟩,
   (h.2.2.2 ⟨⟨none, none, some ["b", "a"], []⟩, 0⟩ (by decide)).1⟩

end APP
